import Mathlib

/-!
Shallow embedding of the hybrid document-retrieval engine in `main.py`.

Python strings are modelled as lists of characters, Python lists as Lean
lists, and the numeric scores and embedding components (floats in the
source) as exact integers; the claims settled here depend only on ordering,
negation and sums of squares, never on rounding.  The external
collaborators (the sentence-transformer `embedder.encode`, the SQLite FTS5
`MATCH`/`bm25`/`snippet` kernel, and the upstream fetchers) are supplied as
an explicit capability record `Env`; the faiss `IndexFlatL2` behaviour
(exhaustive squared-L2 scan, ascending order, `-1`/`FLT_MAX` padding when
fewer than `k` vectors are stored, and the Python wrapper's `k > 0`
assertion) is embedded directly.  Fallible Python code is modelled in
`Except PyError`.
-/

/-- Python strings, modelled as lists of characters. -/
abbrev PyStr := List Char

/-- The Python exceptions that the embedded code paths can raise. -/
inductive PyError where
  /-- `IndexError`: list index out of range. -/
  | indexError
  /-- `ValueError`: `range()` arg 3 must not be zero, or a numpy shape error. -/
  | valueError
  /-- a failure raised inside the external embedding model. -/
  | embeddingError
  /-- `AssertionError`: the faiss Python wrapper asserts `k > 0` in `search`. -/
  | assertionError
deriving DecidableEq

deriving instance DecidableEq for Except

/-- Helper for `str.split()`: walks the characters, accumulating the current
run of non-whitespace characters in `acc`. -/
def pySplitAux : List Char → List Char → List PyStr
  | [], acc => if acc.isEmpty then [] else [acc]
  | c :: rest, acc =>
    if c.isWhitespace then
      if acc.isEmpty then pySplitAux rest [] else acc :: pySplitAux rest []
    else pySplitAux rest (acc ++ [c])

/-- Python `text.split()`: split on runs of whitespace, dropping empty pieces. -/
def pySplit (s : PyStr) : List PyStr := pySplitAux s []

/-- Python `" ".join(words)`. -/
def joinWords : List PyStr → PyStr
  | [] => []
  | [w] => w
  | w :: ws => w ++ ' ' :: joinWords ws

/-- Python `range(0, n, step)` for a positive `step`:
`0, step, 2*step, …` while below `n`. -/
def pyRange (n step : Nat) : List Nat :=
  (List.range ((n + step - 1) / step)).map (fun i => i * step)

/-- `chunk_text` from `main.py` (lines 62-66): split the text into words,
then yield `" ".join(words[i : i + max_words])` for `i` in
`range(0, len(words), max_words - overlap)`.  The Python generator is
modelled eagerly as the list of all produced chunks; `range` with a zero
step raises `ValueError`, and with a negative step (from `0` upwards) it is
empty, so no chunk is produced and no error is raised. -/
def chunk_text (text : PyStr) (max_words overlap : Nat) : Except PyError (List PyStr) :=
  let words := pySplit text
  let step : Int := (max_words : Int) - (overlap : Int)
  if step = 0 then .error .valueError
  else if step < 0 then .ok []
  else .ok ((pyRange words.length step.toNat).map
      (fun i => joinWords ((words.drop i).take max_words)))

/-- Embedding vectors; the float components are modelled as integers. -/
abbrev Vec := List Int

/-- A row of the SQLite FTS5 table `docs(content, source, doc_id)`. -/
structure Row where
  content : PyStr
  source : PyStr
  doc_id : PyStr
deriving DecidableEq

/-- An entry of the module-global `metadata` list:
`{"source": …, "id": …, "text": …}`. -/
structure MetaEntry where
  source : PyStr
  id : PyStr
  text : PyStr
deriving DecidableEq

/-- The `Hit` pydantic model: `source_id`, `snippet`, `score`. -/
structure Hit where
  source_id : PyStr
  snippet : PyStr
  score : Int
deriving DecidableEq

/-- A fetched and HTML-normalized upstream document (a Jira issue or a
Confluence page): its origin, its key/page id, and its plain-text body. -/
structure Doc where
  source : PyStr
  id : PyStr
  body : PyStr
deriving DecidableEq

/-- The process-wide index state of `main.py`: the FTS5 `docs` table, the
module globals `vectors` and `metadata`, and the contents of the
`faiss.IndexFlatL2` index. -/
structure SearchState where
  docs : List Row
  vectors : List Vec
  metadata : List MetaEntry
  faissIndex : List Vec
deriving DecidableEq

/-- The state at process start: both indexes empty, globals empty. -/
def emptyState : SearchState := ⟨[], [], [], []⟩

/-- The external capabilities consumed by the engine: the embedding model
(`embedder.encode`, which may raise), the FTS5 `MATCH` predicate, the FTS5
`bm25` rank function (lower rank = better match), and the FTS5 `snippet`
excerpt function. -/
structure Env where
  embed : PyStr → Except PyError Vec
  ftsMatch : PyStr → PyStr → Bool
  bm25rank : PyStr → Row → Int
  mkSnippet : Row → PyStr

/-- Insert `x` into `l` before the first element `y` with `le x y`.
Together with `stableSortBy` this is the unique stable sort for a total
preorder, hence extensionally the sort used by Python's `sorted` and by
SQLite's `ORDER BY` in this model. -/
def insertLe (le : α → α → Bool) (x : α) : List α → List α
  | [] => [x]
  | y :: ys => if le x y then x :: y :: ys else y :: insertLe le x ys

/-- Stable insertion sort by the boolean relation `le`. -/
def stableSortBy (le : α → α → Bool) : List α → List α
  | [] => []
  | x :: xs => insertLe le x (stableSortBy le xs)

/-- Squared Euclidean distance, the metric reported by `faiss.IndexFlatL2`. -/
def sqdist (a b : Vec) : Int := ((a.zip b).map (fun p => (p.1 - p.2) ^ 2)).sum

/-- `FLT_MAX`, the distance faiss reports in padding slots when the index
holds fewer than `k` vectors. -/
def fltMax : Int := 2 ^ 128 - 2 ^ 104

/-- `faiss_index.search(q, k)` on a flat L2 index.  The Python wrapper
(`replacement_search`) asserts `k > 0` and raises `AssertionError` on
`k = 0` before any scan happens.  Otherwise: exhaustively score every
stored vector, order ascending by squared distance, take `k`, and pad the
missing slots with label `-1` and distance `FLT_MAX` when fewer than `k`
vectors are stored.  Each slot is a `(label, distance)` pair. -/
def faissSearch (index : List Vec) (qv : Vec) (k : Nat) :
    Except PyError (List (Int × Int)) :=
  if k = 0 then .error .assertionError
  else
    let scored := index.enum.map (fun p => ((p.1 : Int), sqdist qv p.2))
    let sorted := stableSortBy (fun a b => decide (a.2 ≤ b.2)) scored
    .ok (sorted.take k ++ List.replicate (k - index.length) ((-1 : Int), fltMax))

/-- Python list indexing `l[i]` with negative-index wraparound;
`none` models an `IndexError`. -/
def pyGet (l : List α) (i : Int) : Option α :=
  if 0 ≤ i then l.get? i.toNat
  else if i.natAbs ≤ l.length then l.get? (l.length - i.natAbs) else none

/-- `perform_ftss_match` from `main.py` (lines 115-135): select the rows of
`docs` matching the query, `ORDER BY rank` ascending (`bm25`, lower =
better), `LIMIT top_k`, and build hits with `source_id = f"{source}:{doc_id}"`,
the FTS5 snippet, and `score = -rank`. -/
def perform_ftss_match (env : Env) (st : SearchState) (query : PyStr) (top_k : Nat) :
    List Hit :=
  let rows := st.docs.filter (fun r => env.ftsMatch query r.content)
  let ordered :=
    stableSortBy (fun a b => decide (env.bm25rank query a ≤ env.bm25rank query b)) rows
  (ordered.take top_k).map (fun r =>
    { source_id := r.source ++ ':' :: r.doc_id
      snippet := env.mkSnippet r
      score := -(env.bm25rank query r) })

/-- `perform_faiss_search` from `main.py` (lines 138-152): embed the query,
run the faiss search, look each returned label up in `metadata` (Python
indexing, so the `-1` padding labels wrap around to the last entry, or raise
`IndexError` when `metadata` is empty), attach the raw distance as the hit's
score, and append the first `top_k` keyword hits. -/
def perform_faiss_search (env : Env) (st : SearchState) (query : PyStr)
    (initial_results : List Hit) (top_k : Nat) : Except PyError (List Hit) := do
  let q_vec ← env.embed query
  let slots ← faissSearch st.faissIndex q_vec top_k
  let final_results ← slots.mapM (fun s =>
    match pyGet st.metadata s.1 with
    | none => Except.error PyError.indexError
    | some doc => Except.ok
        { source_id := doc.source ++ ':' :: doc.id
          snippet := doc.text
          score := s.2 })
  return final_results ++ initial_results.take top_k

/-- `hybrid_search` from `main.py` (lines 155-159): keyword match with limit
`top_k * 2`, then the faiss stage, then a stable descending sort by score
truncated to `top_k`. -/
def hybrid_search (env : Env) (st : SearchState) (query : PyStr) (top_k : Nat) :
    Except PyError (List Hit) := do
  let initial_results := perform_ftss_match env st query (top_k * 2)
  let final_results ← perform_faiss_search env st query initial_results top_k
  return (stableSortBy (fun a b => decide (b.score ≤ a.score)) final_results).take top_k

/-- The inner loop of `ingest_data` over the chunks of one document: embed
the chunk (the external call may raise, and the exception propagates),
append the vector to `vectors`, the metadata entry to `metadata`, and insert
the row into the FTS5 table. -/
def ingestChunks (env : Env) (source docId : PyStr) :
    List PyStr → SearchState → Except PyError SearchState
  | [], st => .ok st
  | c :: cs, st =>
    match env.embed c with
    | .error e => .error e
    | .ok vec =>
      ingestChunks env source docId cs
        { st with
          vectors := st.vectors ++ [vec]
          metadata := st.metadata ++ [⟨source, docId, c⟩]
          docs := st.docs ++ [⟨c, source, docId⟩] }

/-- Ingestion of one fetched document: chunk its body with the default
parameters `max_words = 300`, `overlap = 50`, then run the chunk loop. -/
def ingestDoc (env : Env) (d : Doc) (st : SearchState) : Except PyError SearchState :=
  match chunk_text d.body 300 50 with
  | .error e => .error e
  | .ok cs => ingestChunks env d.source d.id cs st

/-- The document loop of `ingest_data`: any per-document failure propagates
and aborts the remaining documents (the source has no try/except). -/
def ingestDocs (env : Env) : List Doc → SearchState → Except PyError SearchState
  | [], st => .ok st
  | d :: ds, st =>
    match ingestDoc env d st with
    | .error e => .error e
    | .ok st2 => ingestDocs env ds st2

/-- `ingest_data` from `main.py` (lines 70-111): drop and recreate the FTS5
table (clearing only the lexical index; the module globals `vectors` and
`metadata` are *not* reset), run the document loop over the fetched
documents, and finally `faiss_index.add(np.array(vectors))`, which appends
the entire accumulated `vectors` list to the faiss index (`np.array` of an
empty list has the wrong shape and raises). -/
def ingest_data (env : Env) (ds : List Doc) (st : SearchState) :
    Except PyError SearchState :=
  match ingestDocs env ds { st with docs := [] } with
  | .error e => .error e
  | .ok st2 =>
    if st2.vectors.isEmpty then .error .valueError
    else .ok { st2 with faissIndex := st2.faissIndex ++ st2.vectors }

/-- The positional-correspondence invariant of §4.3: `vectors` and
`metadata` have equal length and the vector at each position is the
embedding of the chunk whose metadata sits at the same position. -/
def VecMetaInv (env : Env) (st : SearchState) : Prop :=
  st.metadata.map (fun m => env.embed m.text) = st.vectors.map Except.ok

/-- A deterministic environment for concrete runs: a constant embedding,
a `MATCH` predicate that matches nothing, a constant `bm25` rank, and the
row's own content as its snippet. -/
def envStd : Env :=
  { embed := fun _ => .ok [0]
    ftsMatch := fun _ _ => false
    bm25rank := fun _ _ => 0
    mkSnippet := fun r => r.content }

/-- An environment whose embedding model fails on the text `"bad"` and
succeeds on every other chunk. -/
def envFail : Env :=
  { embed := fun c => if c = "bad".toList then .error .embeddingError else .ok [1]
    ftsMatch := fun _ _ => false
    bm25rank := fun _ _ => 0
    mkSnippet := fun r => r.content }

/-- A two-chunk index state: vectors `[1]` and `[2]` at positions `0` and
`1`, with matching metadata, and an empty lexical table. -/
def st1 : SearchState :=
  { docs := []
    vectors := [[1], [2]]
    metadata := [⟨"jira".toList, "A".toList, "ta".toList⟩,
                 ⟨"jira".toList, "B".toList, "tb".toList⟩]
    faissIndex := [[1], [2]] }

/-- A one-word Jira document; its body yields the single chunk `"a"`. -/
def d2 : Doc := ⟨"jira".toList, "K".toList, "a".toList⟩

/-- A document whose only chunk is the text the failing embedder rejects. -/
def dBad : Doc := ⟨"jira".toList, "B1".toList, "bad".toList⟩

/-- A document the failing embedder would accept. -/
def dGood : Doc := ⟨"jira".toList, "G1".toList, "good".toList⟩

/-- One ingestion run of `d2` from the initial state. -/
def ingestOnce : Except PyError SearchState := ingest_data envStd [d2] emptyState

/-- The same ingestion run executed a second time on the resulting state. -/
def ingestTwice : Except PyError SearchState := ingestOnce.bind (ingest_data envStd [d2])

/-- The state produced by `ingestOnce`, written out explicitly. -/
def st3def : SearchState :=
  { docs := [⟨"a".toList, "jira".toList, "K".toList⟩]
    vectors := [[0]]
    metadata := [⟨"jira".toList, "K".toList, "a".toList⟩]
    faissIndex := [[0]] }

/-- The chunks of `"a b c d e f"` under `max_words = 4`, `overlap = 2`. -/
def cs10 : List PyStr := ["a b c d".toList, "c d e f".toList, "e f".toList]

/-- Membership in `insertLe`: the inserted element or an original one. -/
theorem mem_insertLe (le : α → α → Bool) (x a : α) :
    ∀ l : List α, a ∈ insertLe le x l ↔ a = x ∨ a ∈ l := by
  intro l
  induction l with
  | nil => simp [insertLe]
  | cons y ys ih =>
    unfold insertLe
    by_cases h : le x y = true
    · simp only [if_pos h, List.mem_cons]
    · simp only [if_neg h, List.mem_cons, ih]
      tauto

/-- Inserting into a list that is pairwise `le` keeps it pairwise `le`,
provided `le` is transitive and total. -/
theorem pairwise_insertLe (le : α → α → Bool)
    (htrans : ∀ a b c, le a b = true → le b c = true → le a c = true)
    (htot : ∀ a b, le a b = true ∨ le b a = true) (x : α) :
    ∀ l : List α, l.Pairwise (fun a b => le a b = true) →
      (insertLe le x l).Pairwise (fun a b => le a b = true) := by
  intro l
  induction l with
  | nil => intro _; simp [insertLe]
  | cons y ys ih =>
    intro hp
    rcases List.pairwise_cons.mp hp with ⟨hy, hys⟩
    unfold insertLe
    by_cases h : le x y = true
    · simp only [if_pos h]
      refine List.pairwise_cons.mpr ⟨?_, hp⟩
      intro z hz
      rcases List.mem_cons.mp hz with rfl | hz
      · exact h
      · exact htrans x y z h (hy z hz)
    · have hyx : le y x = true := by
        rcases htot x y with h1 | h1
        · exact absurd h1 h
        · exact h1
      simp only [if_neg h]
      refine List.pairwise_cons.mpr ⟨?_, ih hys⟩
      intro z hz
      rcases (mem_insertLe le x z ys).mp hz with rfl | hz
      · exact hyx
      · exact hy z hz

/-- The stable sort is pairwise `le` for a transitive total `le`. -/
theorem pairwise_stableSortBy (le : α → α → Bool)
    (htrans : ∀ a b c, le a b = true → le b c = true → le a c = true)
    (htot : ∀ a b, le a b = true ∨ le b a = true) :
    ∀ l : List α, (stableSortBy le l).Pairwise (fun a b => le a b = true) := by
  intro l
  induction l with
  | nil => simp [stableSortBy]
  | cons x xs ih => exact pairwise_insertLe le htrans htot x _ ih

/-- `pyRange` has `⌈n / step⌉` entries. -/
theorem length_pyRange (n step : Nat) :
    (pyRange n step).length = (n + step - 1) / step := by
  simp [pyRange]

/-- The `i`-th entry of `pyRange n step` is `i * step`. -/
theorem getElem_pyRange (n step i : Nat) (h : i < (pyRange n step).length) :
    (pyRange n step)[i] = i * step := by
  simp [pyRange]

/-- Every index enumerated by `pyRange n step` is below `n`. -/
theorem pyRange_index_lt (n step i : Nat) (hstep : 0 < step)
    (h : i < (n + step - 1) / step) : i * step < n := by
  have h1 : (i + 1) * step ≤ n + step - 1 :=
    (Nat.le_div_iff_mul_le hstep).mp h
  have h2 : i * step + step = (i + 1) * step := by ring
  omega

/-- `pyRange n step` is the singleton `[0]` when `0 < n ≤ step`. -/
theorem pyRange_singleton (n step : Nat) (hstep : 0 < step)
    (h1 : 0 < n) (h2 : n ≤ step) : pyRange n step = [0] := by
  have ha : 1 ≤ (n + step - 1) / step :=
    (Nat.le_div_iff_mul_le hstep).mpr (by omega)
  have hb : (n + step - 1) / step < 2 :=
    (Nat.div_lt_iff_lt_mul hstep).mpr (by omega)
  have hc : (n + step - 1) / step = 1 := by omega
  simp [pyRange, hc, List.range_succ]

/-- `pyRange 0 step` is empty for positive `step`. -/
theorem pyRange_zero (step : Nat) (hstep : 0 < step) : pyRange 0 step = [] := by
  have : (step - 1) / step = 0 := Nat.div_eq_of_lt (by omega)
  simp [pyRange, this]


/-- Unfolding equation of `pySplitAux` on the empty string. -/
theorem pySplitAux_nil (acc : List Char) :
    pySplitAux [] acc = if acc.isEmpty then [] else [acc] := rfl

/-- Unfolding equation of `pySplitAux` on a leading character. -/
theorem pySplitAux_cons (c : Char) (rest acc : List Char) :
    pySplitAux (c :: rest) acc =
      if c.isWhitespace then
        if acc.isEmpty then pySplitAux rest [] else acc :: pySplitAux rest []
      else pySplitAux rest (acc ++ [c]) := rfl

/-- Every word produced by `pySplitAux` is non-empty and whitespace-free,
provided the accumulator is whitespace-free. -/
theorem pySplitAux_goodWords :
    ∀ cs : List Char, ∀ acc : List Char,
      (∀ c ∈ acc, c.isWhitespace = false) →
      ∀ w ∈ pySplitAux cs acc, w ≠ [] ∧ ∀ c ∈ w, c.isWhitespace = false := by
  intro cs
  induction cs with
  | nil =>
    intro acc hacc w hw
    rw [pySplitAux_nil] at hw
    by_cases ha : acc.isEmpty
    · simp [ha] at hw
    · simp [ha] at hw
      subst hw
      exact ⟨by simpa [List.isEmpty_iff] using ha, hacc⟩
  | cons c rest ih =>
    intro acc hacc w hw
    rw [pySplitAux_cons] at hw
    by_cases hc : c.isWhitespace
    · by_cases ha : acc.isEmpty
      · simp [hc, ha] at hw
        exact ih [] (by simp) w hw
      · simp [hc, ha] at hw
        rcases hw with hw | hw
        · subst hw
          exact ⟨by simpa [List.isEmpty_iff] using ha, hacc⟩
        · exact ih [] (by simp) w hw
    · simp [hc] at hw
      refine ih (acc ++ [c]) ?_ w hw
      intro d hd
      rcases List.mem_append.mp hd with hd | hd
      · exact hacc d hd
      · simp at hd
        subst hd
        simpa using hc

/-- Consuming a whitespace-free word moves it into the accumulator. -/
theorem pySplitAux_append_word (w : List Char)
    (hw : ∀ c ∈ w, c.isWhitespace = false) :
    ∀ cs acc : List Char, pySplitAux (w ++ cs) acc = pySplitAux cs (acc ++ w) := by
  induction w with
  | nil => intro cs acc; simp
  | cons c w2 ih =>
    intro cs acc
    have hc : c.isWhitespace = false := hw c (by simp)
    rw [List.cons_append, pySplitAux_cons]
    simp only [hc, Bool.false_eq_true, if_neg]
    rw [ih (fun d hd => hw d (by simp [hd])) cs (acc ++ [c])]
    simp

/-- Splitting a string that starts with a space, with a non-empty
accumulator, emits the accumulated word. -/
theorem pySplitAux_space (cs acc : List Char) (hacc : acc ≠ []) :
    pySplitAux (' ' :: cs) acc = acc :: pySplitAux cs [] := by
  rw [pySplitAux_cons]
  have hws : (' ').isWhitespace = true := by decide
  have hne : acc.isEmpty = false := by simpa [List.isEmpty_iff] using hacc
  simp [hws, hne]

/-- Round trip: splitting a single-space join of non-empty, whitespace-free
words recovers exactly those words. -/
theorem pySplit_joinWords :
    ∀ ws : List PyStr,
      (∀ w ∈ ws, w ≠ [] ∧ ∀ c ∈ w, c.isWhitespace = false) →
      pySplit (joinWords ws) = ws := by
  intro ws
  induction ws with
  | nil => intro _; rfl
  | cons w ws2 ih =>
    intro h
    have hw := h w (by simp)
    cases ws2 with
    | nil =>
      show pySplit w = [w]
      unfold pySplit
      have h2 := pySplitAux_append_word w hw.2 [] []
      simp only [List.append_nil, List.nil_append] at h2
      rw [h2, pySplitAux_nil]
      have hne : w.isEmpty = false := by simpa [List.isEmpty_iff] using hw.1
      simp [hne]
    | cons v vs =>
      show pySplit (w ++ ' ' :: joinWords (v :: vs)) = w :: v :: vs
      unfold pySplit
      rw [pySplitAux_append_word w hw.2, List.nil_append,
        pySplitAux_space _ w hw.1]
      have h3 := ih (fun u hu => h u (by simp [hu]))
      unfold pySplit at h3
      rw [h3]

/-- Joining a non-empty list of non-empty words gives a non-empty string. -/
theorem joinWords_ne_nil :
    ∀ ws : List PyStr, ws ≠ [] → (∀ w ∈ ws, w ≠ []) → joinWords ws ≠ [] := by
  intro ws hne hw
  cases ws with
  | nil => exact absurd rfl hne
  | cons w ws2 =>
    cases ws2 with
    | nil => exact hw w (by simp)
    | cons v vs =>
      show w ++ ' ' :: joinWords (v :: vs) ≠ []
      simp


/-- The chunk loop appends to `vectors` and `metadata` in lockstep, so it
preserves the positional-correspondence invariant. -/
theorem ingestChunks_inv (env : Env) (source docId : PyStr) :
    ∀ cs : List PyStr, ∀ st st' : SearchState,
      ingestChunks env source docId cs st = .ok st' →
      VecMetaInv env st → VecMetaInv env st' := by
  intro cs
  induction cs with
  | nil =>
    intro st st' h hinv
    simp only [ingestChunks] at h
    cases h
    exact hinv
  | cons c cs2 ih =>
    intro st st' h hinv
    simp only [ingestChunks] at h
    split at h
    · exact Except.noConfusion h
    next vec hemb =>
      refine ih _ st' h ?_
      unfold VecMetaInv at hinv ⊢
      simp only [List.map_append, List.map_cons, List.map_nil, hinv, hemb]

/-- The chunk loop never touches the faiss index. -/
theorem ingestChunks_faiss (env : Env) (source docId : PyStr) :
    ∀ cs : List PyStr, ∀ st st' : SearchState,
      ingestChunks env source docId cs st = .ok st' →
      st'.faissIndex = st.faissIndex := by
  intro cs
  induction cs with
  | nil =>
    intro st st' h
    simp only [ingestChunks] at h
    cases h
    rfl
  | cons c cs2 ih =>
    intro st st' h
    simp only [ingestChunks] at h
    split at h
    · exact Except.noConfusion h
    next vec hemb =>
      have h2 := ih _ st' h
      exact h2

/-- Per-document ingestion preserves the correspondence invariant. -/
theorem ingestDoc_inv (env : Env) (d : Doc) (st st' : SearchState)
    (h : ingestDoc env d st = .ok st') :
    VecMetaInv env st → VecMetaInv env st' := by
  unfold ingestDoc at h
  split at h
  · exact Except.noConfusion h
  next cs hct => exact ingestChunks_inv env d.source d.id cs st st' h

/-- Per-document ingestion never touches the faiss index. -/
theorem ingestDoc_faiss (env : Env) (d : Doc) (st st' : SearchState)
    (h : ingestDoc env d st = .ok st') : st'.faissIndex = st.faissIndex := by
  unfold ingestDoc at h
  split at h
  · exact Except.noConfusion h
  next cs hct => exact ingestChunks_faiss env d.source d.id cs st st' h

/-- The document loop preserves the correspondence invariant. -/
theorem ingestDocs_inv (env : Env) :
    ∀ ds : List Doc, ∀ st st' : SearchState,
      ingestDocs env ds st = .ok st' → VecMetaInv env st → VecMetaInv env st' := by
  intro ds
  induction ds with
  | nil =>
    intro st st' h hinv
    simp only [ingestDocs] at h
    cases h
    exact hinv
  | cons d ds2 ih =>
    intro st st' h hinv
    simp only [ingestDocs] at h
    split at h
    · exact Except.noConfusion h
    next st2 hd => exact ih st2 st' h (ingestDoc_inv env d st st2 hd hinv)

/-- The document loop never touches the faiss index. -/
theorem ingestDocs_faiss (env : Env) :
    ∀ ds : List Doc, ∀ st st' : SearchState,
      ingestDocs env ds st = .ok st' → st'.faissIndex = st.faissIndex := by
  intro ds
  induction ds with
  | nil =>
    intro st st' h
    simp only [ingestDocs] at h
    cases h
    rfl
  | cons d ds2 ih =>
    intro st st' h
    simp only [ingestDocs] at h
    split at h
    · exact Except.noConfusion h
    next st2 hd => rw [ih st2 st' h, ingestDoc_faiss env d st st2 hd]

/-- C7 (counterexample): with `overlap = 3 > max_words = 2` the chunker does
*not* fail with a configuration error: the negative Python `range` step
yields an empty range, so `chunk_text` silently produces zero chunks. -/
theorem c7_counterexample : chunk_text "a b c".toList 2 3 = .ok [] := by decide

/-- C7 (amended): for `overlap ≥ max_words` the chunker never loops: at
`overlap = max_words` the zero `range` step raises `ValueError` when the
generator is iterated, and for `overlap > max_words` the negative step makes
the range empty, so the chunker returns no chunks and no error. -/
theorem c7_step_not_positive (text : PyStr) (max_words overlap : Nat)
    (_h : max_words ≤ overlap) :
    (overlap = max_words → chunk_text text max_words overlap = .error .valueError) ∧
    (max_words < overlap → chunk_text text max_words overlap = .ok []) := by
  constructor
  · intro he
    have h0 : (max_words : Int) - (overlap : Int) = 0 := by omega
    simp only [chunk_text, h0]
    rfl
  · intro hlt
    have h0 : ¬((max_words : Int) - (overlap : Int) = 0) := by omega
    have h1 : (max_words : Int) - (overlap : Int) < 0 := by omega
    simp only [chunk_text, if_neg h0, if_pos h1]

/-- C7 (witness): the amended behaviour at `max_words = 2` with
`overlap = 2` and `overlap = 4`. -/
theorem c7_witness :
    chunk_text "x y z".toList 2 2 = .error .valueError ∧
    chunk_text "x y z".toList 2 4 = .ok [] :=
  ⟨(c7_step_not_positive "x y z".toList 2 2 (by decide)).1 rfl,
   (c7_step_not_positive "x y z".toList 2 4 (by decide)).2 (by decide)⟩

/-- C8 (counterexample): the text `"a b c"` has `3 < 4 = max_words` words,
yet with `overlap = 2` the chunker produces *two* chunks, `"a b c"` and
`"c"`, because the range step `2` is smaller than the word count. -/
theorem c8_counterexample :
    chunk_text "a b c".toList 4 2 = .ok ["a b c".toList, "c".toList] := by decide

/-- C8 (amended): with `overlap < max_words`, a text of `W` words yields
exactly one chunk — the full word sequence joined by single spaces — when
`0 < W ≤ max_words - overlap`, and an empty text (`W = 0`) yields zero
chunks and no error.  (For `max_words - overlap < W < max_words` the first
chunk is still the full text but further tail chunks follow.) -/
theorem c8_small_text_chunks (text : PyStr) (max_words overlap : Nat)
    (hov : overlap < max_words) :
    ((pySplit text).length = 0 → chunk_text text max_words overlap = .ok []) ∧
    (0 < (pySplit text).length → (pySplit text).length ≤ max_words - overlap →
      chunk_text text max_words overlap = .ok [joinWords (pySplit text)]) := by
  have h0 : ¬((max_words : Int) - (overlap : Int) = 0) := by omega
  have h1 : ¬((max_words : Int) - (overlap : Int) < 0) := by omega
  have htn : ((max_words : Int) - (overlap : Int)).toNat = max_words - overlap := by
    omega
  have hs : 0 < max_words - overlap := by omega
  constructor
  · intro hlen
    simp only [chunk_text, if_neg h0, if_neg h1, htn, hlen]
    rw [pyRange_zero _ hs]
    rfl
  · intro hpos hle
    simp only [chunk_text, if_neg h0, if_neg h1, htn]
    rw [pyRange_singleton _ _ hs hpos hle]
    simp only [List.map_cons, List.map_nil, List.drop_zero]
    rw [List.take_of_length_le (le_trans hle (by omega))]

/-- C8 (witness): a two-word text under the default parameters gives the
single chunk `"a b"`, and the empty text gives no chunks. -/
theorem c8_witness :
    chunk_text "a b".toList 300 50 = .ok [joinWords (pySplit "a b".toList)] ∧
    chunk_text "".toList 300 50 = .ok [] :=
  ⟨(c8_small_text_chunks "a b".toList 300 50 (by decide)).2 (by decide) (by decide),
   (c8_small_text_chunks "".toList 300 50 (by decide)).1 (by decide)⟩

/-- C10: with `0 ≤ overlap < max_words`, every chunk produced by
`chunk_text` is a non-empty string of at most `max_words` whitespace-
delimited words, and when chunk `i` holds exactly `max_words` words and
chunk `i+1` exists, the last `overlap` words of chunk `i` equal the first
`overlap` words of chunk `i+1`. -/
theorem c10_chunk_window_invariants (text : PyStr) (max_words overlap : Nat)
    (cs : List PyStr) (hov : overlap < max_words)
    (hc : chunk_text text max_words overlap = .ok cs)
    (i : Nat) (hi : i < cs.length) :
    cs[i] ≠ [] ∧ (pySplit cs[i]).length ≤ max_words ∧
    ((pySplit cs[i]).length = max_words → ∀ hj : i + 1 < cs.length,
      (pySplit cs[i]).drop (max_words - overlap) =
        (pySplit cs[i+1]).take overlap) := by
  have h0 : ¬((max_words : Int) - (overlap : Int) = 0) := by omega
  have h1 : ¬((max_words : Int) - (overlap : Int) < 0) := by omega
  have htn : ((max_words : Int) - (overlap : Int)).toNat = max_words - overlap := by
    omega
  have hs : 0 < max_words - overlap := by omega
  simp only [chunk_text, if_neg h0, if_neg h1, htn] at hc
  have hcs : cs = (pyRange (pySplit text).length (max_words - overlap)).map
      (fun j => joinWords (((pySplit text).drop j).take max_words)) :=
    (Except.ok.injEq _ _).mp hc.symm
  subst hcs
  have hgood : ∀ w ∈ pySplit text, w ≠ [] ∧ ∀ c ∈ w, c.isWhitespace = false :=
    pySplitAux_goodWords text [] (by simp)
  have key : ∀ j : Nat, ∀ hj : j < (pyRange (pySplit text).length
        (max_words - overlap)).length,
      j * (max_words - overlap) < (pySplit text).length ∧
      ((pyRange (pySplit text).length (max_words - overlap)).map
          (fun j => joinWords (((pySplit text).drop j).take max_words))).get
          ⟨j, by simpa using hj⟩ =
        joinWords (((pySplit text).drop (j * (max_words - overlap))).take max_words) ∧
      pySplit (((pyRange (pySplit text).length (max_words - overlap)).map
          (fun j => joinWords (((pySplit text).drop j).take max_words))).get
          ⟨j, by simpa using hj⟩) =
        ((pySplit text).drop (j * (max_words - overlap))).take max_words := by
    intro j hj
    have hjlt : j * (max_words - overlap) < (pySplit text).length := by
      refine pyRange_index_lt _ _ _ hs ?_
      simpa [length_pyRange] using hj
    have hgetr := getElem_pyRange (pySplit text).length (max_words - overlap) j hj
    have hget : ((pyRange (pySplit text).length (max_words - overlap)).map
        (fun j => joinWords (((pySplit text).drop j).take max_words))).get
        ⟨j, by simpa using hj⟩ =
        joinWords (((pySplit text).drop (j * (max_words - overlap))).take max_words) := by
      simp only [List.get_eq_getElem]
      rw [List.getElem_map, hgetr]
    have hwin : ∀ w ∈ ((pySplit text).drop (j * (max_words - overlap))).take max_words,
        w ≠ [] ∧ ∀ c ∈ w, c.isWhitespace = false := by
      intro w hw
      exact hgood w (List.drop_subset _ _ (List.take_subset _ _ hw))
    have hwne : ((pySplit text).drop (j * (max_words - overlap))).take max_words ≠ [] := by
      have hlen : (((pySplit text).drop (j * (max_words - overlap))).take
          max_words).length = min max_words ((pySplit text).length -
          j * (max_words - overlap)) := by
        simp [List.length_take, List.length_drop]
      intro hnil
      rw [hnil] at hlen
      simp only [List.length_nil] at hlen
      omega
    refine ⟨hjlt, hget, ?_⟩
    rw [hget]
    exact pySplit_joinWords _ hwin
  obtain ⟨hilt, higet, hisplit⟩ := key i (by simpa using hi)
  simp only [List.get_eq_getElem] at higet hisplit
  refine ⟨?_, ?_, ?_⟩
  · rw [higet]
    refine joinWords_ne_nil _ ?_ ?_
    · intro hnil
      have hlen := congrArg List.length hnil
      simp only [List.length_take, List.length_drop, List.length_nil] at hlen
      omega
    · intro w hw
      exact (hgood w (List.drop_subset _ _ (List.take_subset _ _ hw))).1
  · rw [hisplit]
    simp [List.length_take]
  · intro _ hj
    obtain ⟨hjlt, hjget, hjsplit⟩ := key (i + 1) (by simpa using hj)
    simp only [List.get_eq_getElem] at hjget hjsplit
    rw [hisplit, hjsplit]
    rw [List.drop_take]
    have e1 : max_words - (max_words - overlap) = overlap := by omega
    have e2 : min overlap max_words = overlap := by omega
    rw [List.take_take, e1, e2]
    have e3 : i * (max_words - overlap) + (max_words - overlap) =
        (i + 1) * (max_words - overlap) := by ring
    rw [List.drop_drop, e3]

/-- C10 (witness): the spec's own scenario — `"a b c d e f"` with
`max_words = 4`, `overlap = 2` yields `["a b c d", "c d e f", "e f"]`; the
first chunk is non-empty, holds at most `4` words, and its last `2` words
equal the first `2` words of the second chunk. -/
theorem c10_witness :
    cs10.get ⟨0, by decide⟩ ≠ [] ∧
    (pySplit (cs10.get ⟨0, by decide⟩)).length ≤ 4 ∧
    (pySplit (cs10.get ⟨0, by decide⟩)).drop 2 =
      (pySplit (cs10.get ⟨1, by decide⟩)).take 2 := by
  have H := c10_chunk_window_invariants "a b c d e f".toList 4 2 cs10
    (by decide) (by decide) 0 (by decide)
  exact ⟨H.1, H.2.1, H.2.2 (by decide) (by decide)⟩

/-- C5 (counterexample): an embedding failure on the first document aborts
the whole ingestion run — the run returns the raised error, ingests nothing
for the remaining (healthy) document, and surfaces no skip count. -/
theorem c5_counterexample :
    ingest_data envFail [dBad, dGood] emptyState = .error .embeddingError := by
  decide

/-- C5 (amended): a per-document failure inside the ingestion loop
propagates: if ingesting the first document fails (fetch/embedding failure),
`ingest_data` returns that error and the remaining documents are never
processed; no count of skipped documents exists. -/
theorem c5_failure_aborts_run (env : Env) (d : Doc) (ds : List Doc)
    (st : SearchState) (e : PyError)
    (h : ingestDoc env d { st with docs := [] } = .error e) :
    ingest_data env (d :: ds) st = .error e := by
  unfold ingest_data
  simp only [ingestDocs, h]

/-- C5 (witness): the abort behaviour at a concrete failing run with two
healthy documents queued behind the failing one. -/
theorem c5_witness :
    ingest_data envFail [dBad, dGood, dGood] emptyState = .error .embeddingError :=
  c5_failure_aborts_run envFail dBad [dGood, dGood] emptyState .embeddingError
    (by decide)

/-- C2: re-ingestion is not idempotent.  Ingesting the single one-chunk
document `d2` once from the initial state leaves 1 lexical row, 1 metadata
entry and 1 faiss vector; running the identical ingestion a second time
leaves the lexical table unchanged (it alone is dropped and rebuilt) but 2
metadata entries and 3 faiss vectors, because the module globals are never
cleared and `faiss_index.add` re-appends the whole accumulated list. -/
theorem c2_reingest_duplicates :
    ingestOnce.map (fun s => (s.docs.length, s.metadata.length, s.faissIndex.length)) =
      .ok (1, 1, 1) ∧
    ingestTwice.map (fun s => (s.docs.length, s.metadata.length, s.faissIndex.length)) =
      .ok (1, 2, 3) := by
  decide

/-- C3 (counterexample): after the second ingestion run of the same
document, the faiss index holds 3 vectors while the metadata table holds 2
entries — the two stores do not have equal length, so the positional
correspondence fails for a run that follows an earlier run. -/
theorem c3_counterexample :
    ingestTwice.map (fun s => (s.faissIndex.length, s.metadata.length)) =
      .ok (3, 2) := by
  decide

/-- C3 (amended): after a *successful ingestion run starting from the empty
initial state*, the vector stored at each position of the faiss index is the
embedding of the chunk whose metadata sits at the same position of the
lookup table, and the two stores have equal length. -/
theorem c3_first_run_correspondence (env : Env) (ds : List Doc)
    (st' : SearchState) (h : ingest_data env ds emptyState = .ok st') :
    st'.faissIndex.length = st'.metadata.length ∧
    ∀ i : Nat, ∀ h1 : i < st'.metadata.length, ∀ h2 : i < st'.faissIndex.length,
      env.embed (st'.metadata.get ⟨i, h1⟩).text = .ok (st'.faissIndex.get ⟨i, h2⟩) := by
  unfold ingest_data at h
  split at h
  · exact Except.noConfusion h
  next st2 hd =>
    split at h
    · exact Except.noConfusion h
    next hne =>
      cases h
      have hinv0 : VecMetaInv env emptyState := rfl
      have hinv2 : VecMetaInv env st2 := ingestDocs_inv env ds _ st2 hd hinv0
      have hf : st2.faissIndex = [] := ingestDocs_faiss env ds _ st2 hd
      rw [hf]
      simp only [List.nil_append]
      unfold VecMetaInv at hinv2
      have hlen : st2.metadata.length = st2.vectors.length := by
        have h5 := congrArg List.length hinv2
        simpa using h5
      constructor
      · show st2.vectors.length = st2.metadata.length
        omega
      · intro i h1 h2
        show env.embed (st2.metadata.get ⟨i, h1⟩).text = .ok (st2.vectors.get ⟨i, h2⟩)
        have hq := congrArg (fun l => l[i]?) hinv2
        simp only [List.getElem?_map] at hq
        rw [List.getElem?_eq_getElem (show i < st2.metadata.length from h1),
          List.getElem?_eq_getElem (show i < st2.vectors.length from h2)] at hq
        simpa using hq

/-- C3 (witness): the first run of `d2` from the empty state satisfies the
correspondence at position 0, with equal store lengths. -/
theorem c3_witness :
    st3def.faissIndex.length = st3def.metadata.length ∧
    envStd.embed (st3def.metadata.get ⟨0, by decide⟩).text =
      .ok (st3def.faissIndex.get ⟨0, by decide⟩) := by
  have H := c3_first_run_correspondence envStd [d2] st3def (by decide)
  exact ⟨H.1, H.2 0 (by decide) (by decide)⟩

/-- C1: the scores attached to vector-index hits are the *raw* squared
Euclidean distances, not inverted or negated.  On a two-vector index where
the query is at distance 1 from vector 0 and distance 4 from vector 1, the
fused output attaches exactly those distances as scores and, after the
descending sort, ranks the *farther* vector first — higher score means
farther, not closer. -/
theorem c1_raw_distance_as_score :
    hybrid_search envStd st1 "q".toList 2 =
      .ok [⟨"jira:B".toList, "tb".toList, 4⟩, ⟨"jira:A".toList, "ta".toList, 1⟩] ∧
    sqdist [0] (st1.faissIndex.get ⟨1, by decide⟩) = 4 ∧
    sqdist [0] (st1.faissIndex.get ⟨0, by decide⟩) = 1 ∧
    ((1 : Int) < 4) := by
  decide

/-- C4: querying the empty (never-ingested) index state raises an
`IndexError` instead of returning an empty hit list: the faiss search pads
its result with label `-1`, and `metadata[-1]` on the empty metadata list
fails. -/
theorem c4_empty_index_raises :
    hybrid_search envStd emptyState "anything".toList 5 = .error .indexError := by
  decide

/-- C6 (counterexample): calling `hybrid_search` with `top_k = 0` on a
populated index fails with an `AssertionError` raised by the faiss Python
wrapper's `k > 0` assert — an unhandled library assertion, not the
`InvalidArgument` structured error the claim names (no such validation or
error exists anywhere in the code). -/
theorem c6_counterexample :
    hybrid_search envStd st1 "nothing".toList 0 = .error .assertionError := by
  decide

/-- C6 (amended): `hybrid_search` itself performs no validation of `top_k`
and no `InvalidArgument` error exists.  With `top_k = 0` (and the query
embedding succeeding) the lexical stage runs harmlessly (`LIMIT 0`), and
then the faiss wrapper's `k > 0` assertion raises `AssertionError`, so the
call fails with an unhandled library assertion instead of a structured
`InvalidArgument`. -/
theorem c6_topk_zero_asserts (env : Env) (st : SearchState) (q : PyStr)
    (v : Vec) (h : env.embed q = .ok v) :
    hybrid_search env st q 0 = .error .assertionError := by
  simp only [hybrid_search, perform_faiss_search, faissSearch, h, if_pos]
  rfl

/-- C6 (witness): the amended behaviour on the empty state. -/
theorem c6_witness :
    hybrid_search envStd emptyState "x".toList 0 = .error .assertionError :=
  c6_topk_zero_asserts envStd emptyState "x".toList [0] rfl

/-- C9: whenever `hybrid_search` returns a hit list (for positive `top_k`),
that list has length at most `top_k` and is sorted in descending order of
the hits' scores. -/
theorem c9_bounded_and_sorted (env : Env) (st : SearchState) (q : PyStr)
    (k : Nat) (hits : List Hit) (_hk : 0 < k)
    (h : hybrid_search env st q k = .ok hits) :
    hits.length ≤ k ∧ hits.Pairwise (fun a b => b.score ≤ a.score) := by
  simp only [hybrid_search] at h
  cases hfs : perform_faiss_search env st q (perform_ftss_match env st q (k * 2)) k with
  | error e =>
    rw [hfs] at h
    simp [Except.bind] at h
  | ok final =>
    rw [hfs] at h
    simp only [Except.bind, pure, Except.pure] at h
    have hhits : hits =
        (stableSortBy (fun a b => decide (b.score ≤ a.score)) final).take k :=
      ((Except.ok.injEq _ _).mp h).symm
    subst hhits
    constructor
    · simp [List.length_take]
    · have hp := pairwise_stableSortBy (fun a b : Hit => decide (b.score ≤ a.score))
        (fun a b c hab hbc => decide_eq_true
          (le_trans (of_decide_eq_true hbc) (of_decide_eq_true hab)))
        (fun a b => by
          rcases Int.le_total b.score a.score with h1 | h1
          · exact Or.inl (decide_eq_true h1)
          · exact Or.inr (decide_eq_true h1)) final
      refine List.Pairwise.sublist (List.take_sublist _ _) (hp.imp ?_)
      intro a b hab
      exact of_decide_eq_true hab

/-- C9 (witness): a successful one-hit search on the two-vector state. -/
theorem c9_witness :
    ([(⟨"jira:A".toList, "ta".toList, 1⟩ : Hit)].length ≤ 1) ∧
    List.Pairwise (fun a b : Hit => b.score ≤ a.score)
      [⟨"jira:A".toList, "ta".toList, 1⟩] :=
  c9_bounded_and_sorted envStd st1 "q".toList 1
    [⟨"jira:A".toList, "ta".toList, 1⟩] (by decide) (by decide)
